import Mathlib

/-!
Verification of the framing/demuxing and buffering core of the go-faad2
repository (package `faad2`): the ADTS frame-header codec and
resynchronizer (`adts.go`), the M4A sample-table builder, random-access
reader, seek and position logic (`m4a.go`), and the shared buffering
adapter used by both readers.

Bytes are modelled as `Nat` values below 256, byte sequences as
`List Nat`, streams/files as byte lists with an explicit read position,
and the external frame-decode engine as a function parameter.  Machine
integer truncation is written with an explicit `% 2 ^ w` where it can
fire; Go's bitwise operators translate to `&&&`, `|||`, `<<<`, `>>>` on
`Nat`.  Fallible operations return `Except Err` or carry an
`Option Err` alongside their result, mirroring Go's `(value, error)`
pairs.
-/

namespace Faad2

/-- Error values of the package (sentinel `errors.New` values in Go). -/
inductive Err where
  | invalidADTS
  | syncNotFound
  | invalidConfig
  | decodeFailed
  | outOfMemory
  | notInitialized
  | decoderClosed
  | emptyFrame
  | notM4A
  | noAudioTrack
  | unsupportedCodec
  | seekUnavailable
  | eof
  | unexpectedEOF
  deriving DecidableEq, Repr

/-- Sample rate lookup table for ADTS (`adtsSampleRates` in adts.go). -/
def adtsSampleRates : List Nat :=
  [96000, 88200, 64000, 48000, 44100, 32000, 24000, 22050,
   16000, 12000, 11025, 8000, 7350, 0, 0, 0]

/-- Number of valid sample rate indices (`adtsSampleRateCount`). -/
def adtsSampleRateCount : Nat := 16

/-- Maximum number of bytes searched for a sync word (`maxResyncBytes`). -/
def maxResyncBytes : Nat := 8192

/-- Embeds `ParseADTSHeader` (adts.go): parse sample rate, channel count
and frame length from at least 7 header bytes. -/
def ParseADTSHeader (data : List Nat) : Except Err (Nat × Nat × Nat) :=
  if data.length < 7 then .error .invalidADTS
  else
    let syncWord := (data.getD 0 0) <<< 4 ||| (data.getD 1 0) >>> 4
    if syncWord ≠ 0xFFF then .error .syncNotFound
    else
      let samplingFreqIndex := (data.getD 2 0) >>> 2 &&& 0x0F
      if adtsSampleRates.length ≤ samplingFreqIndex then .error .invalidADTS
      else
        let sampleRate := adtsSampleRates.getD samplingFreqIndex 0
        let channels :=
          ((data.getD 2 0) &&& 0x01) <<< 2 ||| ((data.getD 3 0) >>> 6 &&& 0x03)
        let frameLength :=
          ((data.getD 3 0) &&& 0x03) <<< 11 ||| (data.getD 4 0) <<< 3 |||
            ((data.getD 5 0) >>> 5 &&& 0x07)
        .ok (sampleRate, channels, frameLength)

/-- Embeds `buildAudioSpecificConfig` (adts.go): pack object type,
sampling-frequency index and channel configuration into two bytes.
The `% 256` makes Go's `uint8` truncation of the shifts explicit. -/
def buildAudioSpecificConfig (objectType samplingFreqIndex channelConfig : Nat) :
    List Nat :=
  [((objectType <<< 3) % 256) ||| ((samplingFreqIndex &&& 0x0E) >>> 1),
   (((samplingFreqIndex &&& 0x01) <<< 7) ||| ((channelConfig <<< 3) % 256)) % 256]

/-- Modelled from the spec: the documented big-endian bit layout of the
elementary bitstream header (spec section 6), instantiated with the
fields the round-trip claim quantifies over; sync is the required
pattern, id, layer, profile, private bit, original/copy, home,
buffer-fullness and raw-data-block count are zero, and the CRC-absent
flag is set. -/
def encodeADTSHeader (samplingFreqIndex channelConfig frameLength : Nat) :
    List Nat :=
  [0xFF,
   0xF1,
   (samplingFreqIndex <<< 2) ||| (channelConfig >>> 2),
   ((channelConfig &&& 0x03) <<< 6) ||| (frameLength >>> 11),
   (frameLength >>> 3) &&& 0xFF,
   (frameLength &&& 0x07) <<< 5,
   0x00]

/-! ### Bitwise-to-arithmetic conversion lemmas -/

/-- A value or-ed below a disjoint shifted value adds. -/
theorem mul_pow_lor_eq_add : ∀ (n a b : Nat), b < 2 ^ n →
    a * 2 ^ n ||| b = a * 2 ^ n + b := by
  intro n
  induction n with
  | zero =>
    intro a b h
    have hb : b = 0 := by omega
    simp [hb]
  | succ n ih =>
    intro a b h
    have hpow : 2 ^ (n + 1) = 2 * 2 ^ n := by ring
    have h1 : a * 2 ^ (n + 1) = Nat.bit false (a * 2 ^ n) := by
      rw [Nat.bit_val]
      simp
      ring
    conv_lhs => rw [← Nat.bit_decomp b]
    rw [h1, Nat.lor_bit]
    have hb' : Nat.div2 b < 2 ^ n := by
      rw [Nat.div2_val]
      omega
    rw [ih _ _ hb']
    have hb2 : b = 2 * Nat.div2 b + (Nat.bodd b).toNat := by
      conv_lhs => rw [← Nat.bit_decomp b]
      rw [Nat.bit_val]
    rw [Nat.bit_val, Nat.bit_val]
    simp
    omega

theorem lor_eq_add_of_lt {n b : Nat} (a : Nat) (h : b < 2 ^ n) :
    a <<< n ||| b = a <<< n + b := by
  rw [Nat.shiftLeft_eq]
  exact mul_pow_lor_eq_add n a b h

theorem and_mask_eq_mod (x n : Nat) : x &&& (2 ^ n - 1) = x % 2 ^ n := by
  have := Nat.and_pow_two_sub_one_eq_mod x n
  exact this

theorem and_one_eq (x : Nat) : x &&& 1 = x % 2 := Nat.and_one_is_mod x

theorem and_three_eq (x : Nat) : x &&& 3 = x % 4 := by
  have := and_mask_eq_mod x 2
  norm_num at this
  exact this

theorem and_seven_eq (x : Nat) : x &&& 7 = x % 8 := by
  have := and_mask_eq_mod x 3
  norm_num at this
  exact this

theorem and_fifteen_eq (x : Nat) : x &&& 15 = x % 16 := by
  have := and_mask_eq_mod x 4
  norm_num at this
  exact this

theorem and_255_eq (x : Nat) : x &&& 255 = x % 256 := by
  have := and_mask_eq_mod x 8
  norm_num at this
  exact this

theorem lor4_eq_add (a b : Nat) (h : b < 4) : a * 4 ||| b = a * 4 + b := by
  have := mul_pow_lor_eq_add 2 a b (by norm_num; omega)
  norm_num at this
  exact this

theorem lor8_eq_add (a b : Nat) (h : b < 8) : a * 8 ||| b = a * 8 + b := by
  have := mul_pow_lor_eq_add 3 a b (by norm_num; omega)
  norm_num at this
  exact this

theorem lor64_eq_add (a b : Nat) (h : b < 64) : a * 64 ||| b = a * 64 + b := by
  have := mul_pow_lor_eq_add 6 a b (by norm_num; omega)
  norm_num at this
  exact this

theorem lor128_eq_add (a b : Nat) (h : b < 128) : a * 128 ||| b = a * 128 + b := by
  have := mul_pow_lor_eq_add 7 a b (by norm_num; omega)
  norm_num at this
  exact this

theorem lor2048_eq_add (a b : Nat) (h : b < 2048) :
    a * 2048 ||| b = a * 2048 + b := by
  have := mul_pow_lor_eq_add 11 a b (by norm_num; omega)
  norm_num at this
  exact this

/-- C8: the codec-config builder returns exactly the two documented
bytes.  For all in-range inputs (objectType 5 bits, samplingFreqIndex
4 bits, channelConfig 4 bits), byte0 is objectType shifted left 3 or-ed
with the top 3 bits of samplingFreqIndex, and byte1 is the bottom bit
of samplingFreqIndex shifted left 7 or-ed with channelConfig shifted
left 3; in particular (2,4,2) yields [0x12,0x10] and (2,4,1) yields
[0x12,0x08]. -/
theorem claim_C8 :
    (∀ objectType samplingFreqIndex channelConfig : Nat,
      objectType < 32 → samplingFreqIndex < 16 → channelConfig < 16 →
      buildAudioSpecificConfig objectType samplingFreqIndex channelConfig =
        [objectType <<< 3 ||| samplingFreqIndex >>> 1,
         (samplingFreqIndex &&& 0x01) <<< 7 ||| channelConfig <<< 3]) ∧
    buildAudioSpecificConfig 2 4 2 = [0x12, 0x10] ∧
    buildAudioSpecificConfig 2 4 1 = [0x12, 0x08] := by
  refine ⟨?_, by decide, by decide⟩
  intro ot sfi cc hot hsfi hcc
  have h14 : (sfi &&& 0x0E) >>> 1 = sfi / 2 := by
    have h : ∀ x : Nat, x < 16 → (x &&& 0x0E) >>> 1 = x / 2 := by decide
    exact h sfi hsfi
  unfold buildAudioSpecificConfig
  rw [h14, and_one_eq]
  simp only [Nat.shiftLeft_eq, Nat.shiftRight_eq_div_pow]
  norm_num
  have hot8 : ot * 8 % 256 = ot * 8 := Nat.mod_eq_of_lt (by omega)
  have hcc8 : cc * 8 % 256 = cc * 8 := Nat.mod_eq_of_lt (by omega)
  rw [hot8, hcc8, lor8_eq_add ot (sfi / 2) (by omega),
    lor128_eq_add (sfi % 2) (cc * 8) (by omega)]
  have houter : (sfi % 2 * 128 + cc * 8) % 256 = sfi % 2 * 128 + cc * 8 :=
    Nat.mod_eq_of_lt (by omega)
  rw [houter]
  exact ⟨rfl, rfl⟩

/-- C4: header parsing is a left-inverse of header encoding.  For every
valid samplingFreqIndex (4 bits, non-zero table entry), 3-bit
channelConfig and 13-bit frameLength, encoding the fields into a 7-byte
header per the documented bit layout and parsing the bytes with
`ParseADTSHeader` reproduces the table's sample rate, the channel count
and the frame length. -/
theorem claim_C4 :
    ∀ samplingFreqIndex channelConfig frameLength : Nat,
      samplingFreqIndex < 16 →
      adtsSampleRates.getD samplingFreqIndex 0 ≠ 0 →
      channelConfig < 8 → frameLength < 8192 →
      ParseADTSHeader
          (encodeADTSHeader samplingFreqIndex channelConfig frameLength) =
        .ok (adtsSampleRates.getD samplingFreqIndex 0, channelConfig,
          frameLength) := by
  intro sfi cc fl hsfi _hrate hcc hfl
  unfold ParseADTSHeader encodeADTSHeader
  simp only [List.getD_cons_zero, List.getD_cons_succ, List.length_cons,
    List.length_nil]
  norm_num
  -- byte 2: sampling frequency index and channel-config high bit
  have hb2 : sfi <<< 2 ||| cc >>> 2 = sfi * 4 + cc / 4 := by
    rw [Nat.shiftLeft_eq, Nat.shiftRight_eq_div_pow]
    norm_num
    exact lor4_eq_add sfi (cc / 4) (by omega)
  -- byte 3: channel-config low bits and frame-length high bits
  have hb3 : (cc &&& 3) <<< 6 ||| fl >>> 11 = cc % 4 * 64 + fl / 2048 := by
    rw [and_three_eq, Nat.shiftLeft_eq, Nat.shiftRight_eq_div_pow]
    norm_num
    exact lor64_eq_add (cc % 4) (fl / 2048) (by omega)
  rw [hb2, hb3]
  -- recovered sampling frequency index
  have hsfi2 : (sfi * 4 + cc / 4) >>> 2 &&& 15 = sfi := by
    rw [Nat.shiftRight_eq_div_pow, and_fifteen_eq]
    norm_num
    omega
  rw [hsfi2]
  rw [if_pos (by decide), if_neg (by simp [adtsSampleRates]; omega)]
  simp only [Except.ok.injEq, Prod.mk.injEq]
  refine ⟨trivial, ?_, ?_⟩
  · -- recovered channel count
    rw [Nat.shiftLeft_eq, Nat.shiftRight_eq_div_pow, and_three_eq]
    norm_num
    have h1 : (sfi * 4 + cc / 4) % 2 = cc / 4 := by omega
    have h2 : (cc % 4 * 64 + fl / 2048) / 64 % 4 = cc % 4 := by omega
    rw [h1, h2, lor4_eq_add (cc / 4) (cc % 4) (by omega)]
    omega
  · -- recovered frame length
    simp only [and_three_eq, and_255_eq, and_seven_eq, Nat.shiftLeft_eq,
      Nat.shiftRight_eq_div_pow]
    norm_num
    have h1 : (cc % 4 * 64 + fl / 2048) % 4 = fl / 2048 := by omega
    rw [h1, lor2048_eq_add (fl / 2048) (fl / 8 % 256 * 8) (by omega)]
    have h3 : fl / 2048 * 2048 + fl / 8 % 256 * 8 =
        (fl / 2048 * 256 + fl / 8 % 256) * 8 := by ring
    rw [h3, lor8_eq_add _ (fl % 8) (by omega)]
    omega

/-! ### Container sample-table builder (m4a.go) -/

/-- Chunk-to-sample run entry (`mp4.StscEntry`). -/
structure StscEntry where
  firstChunk : Nat
  samplesPerChunk : Nat
  deriving DecidableEq, Repr

/-- Sample-duration run entry (`mp4.SttsEntry`). -/
structure SttsEntry where
  sampleCount : Nat
  sampleDelta : Nat
  deriving DecidableEq, Repr

/-- Sample descriptor (`sampleInfo` in m4a.go). -/
structure sampleInfo where
  offset : Nat
  size : Nat
  duration : Nat
  deriving DecidableEq, Repr

/-- Expansion of the duration run-length table into one duration per
sample (the `sampleDurations` loop of `buildSampleTable`). -/
def expandDurations (sttsEntries : List SttsEntry) : List Nat :=
  sttsEntries.flatMap (fun e => List.replicate e.sampleCount e.sampleDelta)

/-- Number of samples in the chunk with (0-based) index `chunkIdx`: the
backwards scan of `stscEntries` in `buildSampleTable`, selecting the
last entry whose `firstChunk` is at most `chunkIdx + 1`, defaulting
to 1. -/
def samplesInChunk (stscEntries : List StscEntry) (chunkIdx : Nat) : Nat :=
  match stscEntries.reverse.find? (fun e => decide (e.firstChunk ≤ chunkIdx + 1)) with
  | some e => e.samplesPerChunk
  | none => 1

/-- Inner loop of `buildSampleTable`: starting at byte `offset` with
running sample index `sampleIdx`, emit up to `i` descriptors (stopping
at the end of the sample-size table), each advancing the byte cursor by
its size; returns the emitted run and the next sample index. -/
def emitChunk (sampleSizes sampleDurations : List Nat) :
    Nat → Nat → Nat → List sampleInfo × Nat
  | _offset, sampleIdx, 0 => ([], sampleIdx)
  | offset, sampleIdx, i + 1 =>
    if sampleIdx < sampleSizes.length then
      let size := sampleSizes.getD sampleIdx 0
      let duration := sampleDurations.getD sampleIdx 1024
      let rest :=
        emitChunk sampleSizes sampleDurations (offset + size) (sampleIdx + 1) i
      (⟨offset, size, duration⟩ :: rest.1, rest.2)
    else ([], sampleIdx)

/-- Outer loop of `buildSampleTable` over the chunk offsets, kept as a
list of per-chunk runs (the Go code appends the runs in order; the
flattened form is `buildSampleTable`). -/
def buildChunks (sampleSizes sampleDurations : List Nat)
    (stscEntries : List StscEntry) :
    List Nat → Nat → Nat → List (List sampleInfo)
  | [], _, _ => []
  | offset :: rest, chunkIdx, sampleIdx =>
    let r := emitChunk sampleSizes sampleDurations offset sampleIdx
      (samplesInChunk stscEntries chunkIdx)
    r.1 ::
      buildChunks sampleSizes sampleDurations stscEntries rest (chunkIdx + 1) r.2

/-- Embeds `buildSampleTable` (m4a.go). -/
def buildSampleTable (sampleSizes : List Nat) (chunkOffsets : List Nat)
    (stscEntries : List StscEntry) (sttsEntries : List SttsEntry) :
    List sampleInfo :=
  if sampleSizes.length = 0 ∨ chunkOffsets.length = 0 then []
  else
    (buildChunks sampleSizes (expandDurations sttsEntries) stscEntries
      chunkOffsets 0 0).flatten

/-- Total number of samples the chunk layout can hold from chunk
`chunkIdx` over the given chunk offsets. -/
def chunkCapacity (stscEntries : List StscEntry) : List Nat → Nat → Nat
  | [], _ => 0
  | _ :: rest, chunkIdx =>
    samplesInChunk stscEntries chunkIdx +
      chunkCapacity stscEntries rest (chunkIdx + 1)

theorem emitChunk_spec (sizes durs : List Nat) : ∀ (k off idx : Nat),
    (emitChunk sizes durs off idx k).1.length = min k (sizes.length - idx) ∧
    (emitChunk sizes durs off idx k).2 = idx + min k (sizes.length - idx) := by
  intro k
  induction k with
  | zero => intro off idx; simp [emitChunk]
  | succ k ih =>
    intro off idx
    by_cases h : idx < sizes.length
    · have hrec := ih (off + sizes.getD idx 0) (idx + 1)
      simp only [emitChunk, if_pos h, List.length_cons]
      omega
    · simp only [emitChunk, if_neg h, List.length_nil]
      omega

theorem emitChunk_head (sizes durs : List Nat) (k off idx : Nat)
    (x : sampleInfo)
    (hx : (emitChunk sizes durs off idx k).1.head? = some x) :
    x.offset = off := by
  cases k with
  | zero => simp [emitChunk] at hx
  | succ k =>
    by_cases h : idx < sizes.length
    · simp only [emitChunk, if_pos h, List.head?_cons, Option.some.injEq] at hx
      rw [← hx]
    · simp [emitChunk, if_neg h] at hx

theorem emitChunk_chain (sizes durs : List Nat) : ∀ (k off idx : Nat),
    List.Chain' (fun a b => b.offset = a.offset + a.size)
      (emitChunk sizes durs off idx k).1 := by
  intro k
  induction k with
  | zero => intro off idx; simp [emitChunk]
  | succ k ih =>
    intro off idx
    by_cases h : idx < sizes.length
    · simp only [emitChunk, if_pos h]
      rw [List.chain'_cons']
      constructor
      · intro y hy
        have := emitChunk_head sizes durs k (off + sizes.getD idx 0) (idx + 1) y hy
        simpa using this
      · exact ih (off + sizes.getD idx 0) (idx + 1)
    · simp [emitChunk, if_neg h]

theorem buildChunks_length (sizes durs : List Nat) (stsc : List StscEntry) :
    ∀ (offs : List Nat) (cIdx sIdx : Nat),
    ((buildChunks sizes durs stsc offs cIdx sIdx).flatten).length =
      min (chunkCapacity stsc offs cIdx) (sizes.length - sIdx) := by
  intro offs
  induction offs with
  | nil => intro cIdx sIdx; simp [buildChunks, chunkCapacity]
  | cons off rest ih =>
    intro cIdx sIdx
    simp only [buildChunks, chunkCapacity, List.flatten_cons, List.length_append]
    have hspec := emitChunk_spec sizes durs (samplesInChunk stsc cIdx) off sIdx
    rw [hspec.1, ih (cIdx + 1) (emitChunk sizes durs off sIdx
      (samplesInChunk stsc cIdx)).2, hspec.2]
    omega

theorem buildChunks_chain (sizes durs : List Nat) (stsc : List StscEntry) :
    ∀ (offs : List Nat) (cIdx sIdx : Nat) (run : List sampleInfo),
    run ∈ buildChunks sizes durs stsc offs cIdx sIdx →
    List.Chain' (fun a b => b.offset = a.offset + a.size) run := by
  intro offs
  induction offs with
  | nil => intro cIdx sIdx run h; simp [buildChunks] at h
  | cons off rest ih =>
    intro cIdx sIdx run h
    simp only [buildChunks, List.mem_cons] at h
    rcases h with h | h
    · rw [h]; exact emitChunk_chain sizes durs _ off sIdx
    · exact ih (cIdx + 1) _ run h

theorem emitChunk_replicate (S N : Nat) : ∀ (k off idx : Nat), idx + k ≤ N →
    (emitChunk (List.replicate N S) [] off idx k).1 =
      (List.range k).map (fun j => ⟨off + j * S, S, 1024⟩) := by
  intro k
  induction k with
  | zero => intro off idx _; simp [emitChunk]
  | succ k ih =>
    intro off idx hk
    have h : idx < (List.replicate N S).length := by
      rw [List.length_replicate]; omega
    simp only [emitChunk, if_pos h]
    have hget : (List.replicate N S).getD idx 0 = S := by
      rw [List.getD_eq_getElem?_getD, List.getElem?_replicate, if_pos (by omega)]
      rfl
    rw [hget]
    have hrest := ih (off + S) (idx + 1) (by omega)
    rw [hrest]
    rw [List.range_succ_eq_map]
    simp only [List.map_cons, List.map_map]
    congr 1
    · simp [List.getD]
    · congr 1
      funext j
      simp only [Function.comp_apply, sampleInfo.mk.injEq]
      refine ⟨?_, trivial, trivial⟩
      simp [Nat.succ_eq_add_one]
      ring

/-- C2: for fixed sample size S, sample count N, a single chunk at
offset O holding all N samples and no duration runs, the table builder
produces exactly N descriptors at offsets O, O+S, O+2S, ..., each of
size S and with the fallback duration 1024. -/
theorem claim_C2 : ∀ (S N O : Nat),
    buildSampleTable (List.replicate N S) [O] [⟨1, N⟩] [] =
      (List.range N).map (fun j => ⟨O + j * S, S, 1024⟩) := by
  intro S N O
  rcases Nat.eq_zero_or_pos N with hN | hN
  · subst hN
    simp [buildSampleTable]
  · have hcond :
        ¬((List.replicate N S).length = 0 ∨ ([O] : List Nat).length = 0) := by
      simp
      omega
    unfold buildSampleTable
    rw [if_neg hcond]
    have hsic : samplesInChunk [⟨1, N⟩] 0 = N := rfl
    have hexp : expandDurations [] = [] := rfl
    simp only [buildChunks, hexp, hsic, List.flatten_cons, List.flatten_nil,
      List.append_nil]
    exact emitChunk_replicate S N N O 0 (by omega)

/-- C3 as stated is false: with two declared samples, one chunk and an
empty chunk-to-sample run table, the builder defaults to one sample for
the chunk and emits a single descriptor, not two. -/
theorem claim_C3_cex :
    (buildSampleTable [1, 1] [0] [] []).length ≠ ([1, 1] : List Nat).length := by
  decide

/-- C3 (amended): for non-empty sample-size and chunk-offset tables the
number of descriptors equals the minimum of the chunk layout capacity
(sum over chunks of samples-per-chunk) and the declared sample count —
so it equals the declared count exactly when the chunk runs cover all
declared samples — and within each chunk each descriptor's offset is
the previous descriptor's offset plus its size; the built table is the
in-order concatenation of the per-chunk runs. -/
theorem claim_C3 :
    (∀ (sizes offs : List Nat) (stsc : List StscEntry) (stts : List SttsEntry),
      sizes ≠ [] → offs ≠ [] →
      (buildSampleTable sizes offs stsc stts).length =
        min (chunkCapacity stsc offs 0) sizes.length) ∧
    (∀ (sizes offs : List Nat) (stsc : List StscEntry) (stts : List SttsEntry),
      sizes ≠ [] → offs ≠ [] →
      sizes.length ≤ chunkCapacity stsc offs 0 →
      (buildSampleTable sizes offs stsc stts).length = sizes.length) ∧
    (∀ (sizes offs : List Nat) (stsc : List StscEntry) (stts : List SttsEntry)
      (run : List sampleInfo),
      run ∈ buildChunks sizes (expandDurations stts) stsc offs 0 0 →
      List.Chain' (fun a b => b.offset = a.offset + a.size) run) ∧
    (∀ (sizes offs : List Nat) (stsc : List StscEntry) (stts : List SttsEntry),
      sizes ≠ [] → offs ≠ [] →
      buildSampleTable sizes offs stsc stts =
        (buildChunks sizes (expandDurations stts) stsc offs 0 0).flatten) := by
  have hlen : ∀ (sizes offs : List Nat) (stsc : List StscEntry)
      (stts : List SttsEntry), sizes ≠ [] → offs ≠ [] →
      (buildSampleTable sizes offs stsc stts).length =
        min (chunkCapacity stsc offs 0) sizes.length := by
    intro sizes offs stsc stts hs ho
    unfold buildSampleTable
    rw [if_neg (by simp [hs, ho])]
    rw [buildChunks_length]
    omega
  refine ⟨hlen, ?_, ?_, ?_⟩
  · intro sizes offs stsc stts hs ho hcap
    rw [hlen sizes offs stsc stts hs ho]
    omega
  · intro sizes offs stsc stts run hrun
    exact buildChunks_chain sizes (expandDurations stts) stsc offs 0 0 run hrun
  · intro sizes offs stsc stts hs ho
    unfold buildSampleTable
    rw [if_neg (by simp [hs, ho])]

theorem claim_C3_witness :
    (buildSampleTable [5, 5] [100] [⟨1, 2⟩] []).length =
      min (chunkCapacity [⟨1, 2⟩] [100] 0) 2 ∧
    (buildSampleTable [5, 5] [100] [⟨1, 2⟩] []).length = 2 ∧
    List.Chain' (fun a b => b.offset = a.offset + a.size)
      ([⟨100, 5, 1024⟩, ⟨105, 5, 1024⟩] : List sampleInfo) ∧
    buildSampleTable [5, 5] [100] [⟨1, 2⟩] [] =
      (buildChunks [5, 5] (expandDurations []) [⟨1, 2⟩] [100] 0 0).flatten := by
  refine ⟨?_, ?_, ?_, ?_⟩
  · exact claim_C3.1 [5, 5] [100] [⟨1, 2⟩] [] (by decide) (by decide)
  · exact claim_C3.2.1 [5, 5] [100] [⟨1, 2⟩] [] (by decide) (by decide)
      (by decide)
  · exact claim_C3.2.2.1 [5, 5] [100] [⟨1, 2⟩] []
      [⟨100, 5, 1024⟩, ⟨105, 5, 1024⟩] (by decide)
  · exact claim_C3.2.2.2 [5, 5] [100] [⟨1, 2⟩] [] (by decide) (by decide)

/-! ### Decode-engine handle and M4A reader (decoder.go, m4a.go) -/

/-- Nanoseconds per second (`time.Second`); durations are modelled in
nanoseconds as Go's `time.Duration` count. -/
def nanosPerSecond : Nat := 1000000000

/-- Decode-engine handle (`Decoder` in decoder.go): the WASM decoder
pointer (0 when released), the closed flag, and a count of engine
destroy invocations made through this handle. -/
structure DecoderState where
  ptr : Nat
  closed : Bool
  destroyCalls : Nat
  deriving DecidableEq, Repr

/-- Embeds `Decoder.Close` (decoder.go): a no-op returning nil once
closed; otherwise destroys the engine handle when the pointer is still
live, zeroes it, and marks the decoder closed. -/
def decoderClose (d : DecoderState) : Option Err × DecoderState :=
  if d.closed then (none, d)
  else
    let d1 := if d.ptr ≠ 0 then
        { d with ptr := 0, destroyCalls := d.destroyCalls + 1 }
      else d
    (none, { d1 with closed := true })

/-- State of an `M4AReader` (m4a.go).  The underlying `io.ReadSeeker`
is the byte list `file`; `decoder` is `none` exactly when the Go field
is nil.  `duration` is the total duration computed at open time. -/
structure M4AState where
  decoder : Option DecoderState
  file : List Nat
  sampleRate : Nat
  channels : Nat
  duration : Nat
  timescale : Nat
  samples : List sampleInfo
  currentIdx : Nat
  pcmBuffer : List Int
  pcmOffset : Nat
  deriving DecidableEq, Repr

/-- Total duration as computed by `OpenM4A` from the sample table. -/
def m4aOpenDuration (samples : List sampleInfo) (timescale : Nat) : Nat :=
  if 0 < timescale then
    (samples.map (fun s => s.duration)).sum * nanosPerSecond / timescale
  else 0

/-- Embeds `M4AReader.Position` (m4a.go): sum of the durations of the
samples consumed so far, scaled to nanoseconds by the timescale. -/
def m4aPosition (st : M4AState) : Nat :=
  if st.timescale = 0 ∨ st.currentIdx = 0 then 0
  else
    ((st.samples.take st.currentIdx).map (fun s => s.duration)).sum *
      nanosPerSecond / st.timescale

/-- Embeds `M4AReader.Duration` (m4a.go): returns the stored total. -/
def m4aDuration (st : M4AState) : Nat := st.duration

/-- The sample-index scan of `M4AReader.Seek`: walk the samples
accumulating durations until the accumulated value would exceed the
target time, returning that index (or one past the last sample). -/
def seekLoop : List sampleInfo → Nat → Nat → Nat → Nat
  | [], _, i, _ => i
  | s :: rest, targetTime, i, acc =>
    if targetTime < acc + s.duration then i
    else seekLoop rest targetTime (i + 1) (acc + s.duration)

/-- Embeds `M4AReader.Seek` (m4a.go): convert the target position to
timescale units, scan for the sample index, clamp it to the table
length, and discard any buffered samples. -/
def m4aSeek (st : M4AState) (position : Nat) : Except Err M4AState :=
  if st.timescale = 0 then .error .seekUnavailable
  else
    let targetTime := position * st.timescale / nanosPerSecond
    let targetIdx := seekLoop st.samples targetTime 0 0
    let clamped := if st.samples.length ≤ targetIdx then st.samples.length
      else targetIdx
    .ok { st with currentIdx := clamped, pcmBuffer := [], pcmOffset := 0 }

/-- Embeds `M4AReader.Close` (m4a.go): close the decoder (if any) and
nil it out; a second call finds no decoder and returns nil. -/
def m4aClose (st : M4AState) : Option Err × M4AState :=
  match st.decoder with
  | some d => ((decoderClose d).1, { st with decoder := none })
  | none => (none, st)

/-- The read loop of `M4AReader.Read` (m4a.go).  `decode` is the
external frame-decode engine; the caller buffer is represented by its
capacity `pcmLen` and the running count `totalRead` of samples copied
into it.  `fuel` is a structural bound on the number of iterations;
every iteration either returns, copies at least one sample, or
advances `currentIdx`, so `m4aRead` supplies enough fuel for the loop
never to run out. -/
def m4aReadLoop (decode : List Nat → Except Err (List Int)) (pcmLen : Nat) :
    Nat → M4AState → Nat → Nat × Option Err × M4AState
  | 0, st, totalRead => (totalRead, none, st)
  | fuel + 1, st, totalRead =>
    if totalRead < pcmLen then
      if st.pcmOffset < st.pcmBuffer.length then
        let n := min (st.pcmBuffer.length - st.pcmOffset) (pcmLen - totalRead)
        m4aReadLoop decode pcmLen fuel
          { st with pcmOffset := st.pcmOffset + n } (totalRead + n)
      else if st.samples.length ≤ st.currentIdx then
        if 0 < totalRead then (totalRead, none, st) else (0, some .eof, st)
      else
        let sample := st.samples.getD st.currentIdx ⟨0, 0, 0⟩
        let st1 := { st with currentIdx := st.currentIdx + 1 }
        if sample.offset + sample.size ≤ st1.file.length then
          match decode ((st1.file.drop sample.offset).take sample.size) with
          | .error e => (totalRead, some e, st1)
          | .ok samples =>
            if samples.length = 0 then m4aReadLoop decode pcmLen fuel st1 totalRead
            else
              let n := min samples.length (pcmLen - totalRead)
              if n < samples.length then
                m4aReadLoop decode pcmLen fuel
                  { st1 with pcmBuffer := samples, pcmOffset := n } (totalRead + n)
              else
                m4aReadLoop decode pcmLen fuel
                  { st1 with pcmBuffer := [], pcmOffset := 0 } (totalRead + n)
        else
          (totalRead,
            some (if st1.file.length ≤ sample.offset then .eof
              else .unexpectedEOF), st1)
    else (totalRead, none, st)

/-- Embeds `M4AReader.Read` (m4a.go). -/
def m4aRead (decode : List Nat → Except Err (List Int)) (st : M4AState)
    (pcmLen : Nat) : Nat × Option Err × M4AState :=
  match st.decoder with
  | none => (0, some .notInitialized, st)
  | some _ => m4aReadLoop decode pcmLen (pcmLen + st.samples.length + 1) st 0

/-! ### ADTS elementary-stream reader (adts.go) -/

/-- Parsed ADTS frame header (`adtsHeader` in adts.go). -/
structure AdtsHeader where
  syncWord : Nat
  id : Nat
  layer : Nat
  protectionAbsent : Bool
  profile : Nat
  samplingFreqIndex : Nat
  privateBit : Bool
  channelConfig : Nat
  originalCopy : Bool
  home : Bool
  frameLength : Nat
  bufferFullness : Nat
  numRawDataBlocks : Nat
  deriving DecidableEq, Repr

/-- State of an `ADTSReader` (adts.go).  The underlying `io.Reader` is
the byte list `stream` together with the read position `pos`. -/
structure ADTSState where
  decoder : Option DecoderState
  stream : List Nat
  pos : Nat
  sampleRate : Nat
  channels : Nat
  pcmBuffer : List Int
  pcmOffset : Nat
  framesRead : Nat
  deriving DecidableEq, Repr

/-- Semantics of `io.ReadFull` on the byte-list stream: reads exactly
`n` bytes when available; reports a clean end of stream when no byte is
available and an unexpected one when only part of the request is. -/
def readFull (stream : List Nat) (pos n : Nat) : Except Err (List Nat × Nat) :=
  if pos + n ≤ stream.length then .ok ((stream.drop pos).take n, pos + n)
  else if stream.length ≤ pos then .error .eof
  else .error .unexpectedEOF

/-- The sync test of the resynchronizer scan at window index `i`:
byte 0xFF followed by a byte with top nibble 0xF. -/
def isSyncAt (w : List Nat) (i : Nat) : Bool :=
  w.getD i 0 == 0xFF && (w.getD (i + 1) 0 &&& 0xF0) == 0xF0

/-- First index of the search window holding the two-byte sync pattern
(the scan loop of `resync`); the scan covers indices `0` to
`w.length - 2`. -/
def findSync (w : List Nat) : Option Nat :=
  (List.range (w.length - 1)).find? (fun i => isSyncAt w i)

/-- The search window examined by one `resync` call: the 6 retained
bytes of the failed header attempt followed by the bytes obtained by
the single bounded read (at most `maxResyncBytes - 6` of them). -/
def resyncWindow (stream : List Nat) (pos : Nat) (buf6 : List Nat) :
    List Nat :=
  buf6 ++ (stream.drop pos).take (min (maxResyncBytes - 6) (stream.length - pos))

/-- Embeds `ADTSReader.resync` (adts.go): one bounded read fills the
search window, which is scanned once for the sync pattern; on a match
the 7 header bytes starting at the match become the new header buffer
(reading trailing bytes from the stream when the match lies near the
end of the window), otherwise the resynchronization fails with the
sync-not-found error. -/
def resync (stream : List Nat) (pos : Nat) (buf6 : List Nat) :
    Except Err (List Nat × Nat) :=
  let n := min (maxResyncBytes - 6) (stream.length - pos)
  if n = 0 then .error .syncNotFound
  else
    let window := resyncWindow stream pos buf6
    let pos1 := pos + n
    match findSync window with
    | none => .error .syncNotFound
    | some i =>
      if i + 7 ≤ window.length then .ok ((window.drop i).take 7, pos1)
      else
        match readFull stream pos1 (7 - (window.length - i)) with
        | .error e => .error e
        | .ok (extra, pos2) => .ok (window.drop i ++ extra, pos2)

/-- Field extraction of `ADTSReader.readHeader` from the 7 header
bytes. -/
def parseHeaderFields (buf : List Nat) : AdtsHeader :=
  { syncWord := (buf.getD 0 0) <<< 4 ||| (buf.getD 1 0) >>> 4
    id := (buf.getD 1 0) >>> 3 &&& 0x01
    layer := (buf.getD 1 0) >>> 1 &&& 0x03
    protectionAbsent := (buf.getD 1 0) &&& 0x01 == 1
    profile := (buf.getD 2 0) >>> 6 &&& 0x03
    samplingFreqIndex := (buf.getD 2 0) >>> 2 &&& 0x0F
    privateBit := (buf.getD 2 0) >>> 1 &&& 0x01 == 1
    channelConfig :=
      ((buf.getD 2 0) &&& 0x01) <<< 2 ||| ((buf.getD 3 0) >>> 6 &&& 0x03)
    originalCopy := (buf.getD 3 0) >>> 5 &&& 0x01 == 1
    home := (buf.getD 3 0) >>> 4 &&& 0x01 == 1
    frameLength :=
      ((buf.getD 3 0) &&& 0x03) <<< 11 ||| (buf.getD 4 0) <<< 3 |||
        ((buf.getD 5 0) >>> 5 &&& 0x07)
    bufferFullness :=
      ((buf.getD 5 0) &&& 0x1F) <<< 6 ||| ((buf.getD 6 0) >>> 2 &&& 0x3F)
    numRawDataBlocks := (buf.getD 6 0) &&& 0x03 }

/-- Embeds `ADTSReader.readHeader` (adts.go): read 7 bytes, resync once
if the sync word fails, parse the header fields, and consume the two
CRC bytes when protection is present. -/
def readHeader (stream : List Nat) (pos : Nat) :
    Except Err (AdtsHeader × Nat) :=
  match readFull stream pos 7 with
  | .error e => .error e
  | .ok (buf, pos1) =>
    let afterSync : Except Err (List Nat × Nat) :=
      if (buf.getD 0 0) <<< 4 ||| (buf.getD 1 0) >>> 4 ≠ 0xFFF then
        resync stream pos1 (buf.drop 1)
      else .ok (buf, pos1)
    match afterSync with
    | .error e => .error e
    | .ok (buf2, pos2) =>
      let header := parseHeaderFields buf2
      if header.protectionAbsent then .ok (header, pos2)
      else
        match readFull stream pos2 2 with
        | .error e => .error e
        | .ok (_, pos3) => .ok (header, pos3)

/-- Embeds `ADTSReader.readPayload` (adts.go). -/
def readPayload (stream : List Nat) (pos : Nat) (header : AdtsHeader) :
    Except Err (List Nat × Nat) :=
  let headerSize := if header.protectionAbsent then 7 else 9
  if header.frameLength ≤ headerSize then .error .invalidADTS
  else readFull stream pos (header.frameLength - headerSize)

/-- The read loop of `ADTSReader.Read` (adts.go), in the style of
`m4aReadLoop`.  On a read error while part of the request was already
consumed the Go reader has advanced by the partial amount; the returned
state keeps the entry position, which no proved property observes. -/
def adtsReadLoop (decode : List Nat → Except Err (List Int)) (pcmLen : Nat) :
    Nat → ADTSState → Nat → Nat × Option Err × ADTSState
  | 0, st, totalRead => (totalRead, none, st)
  | fuel + 1, st, totalRead =>
    if totalRead < pcmLen then
      if st.pcmOffset < st.pcmBuffer.length then
        let n := min (st.pcmBuffer.length - st.pcmOffset) (pcmLen - totalRead)
        adtsReadLoop decode pcmLen fuel
          { st with pcmOffset := st.pcmOffset + n } (totalRead + n)
      else
        match readHeader st.stream st.pos with
        | .error e =>
          if e = .eof ∧ 0 < totalRead then (totalRead, none, st)
          else (totalRead, some e, st)
        | .ok (header, pos1) =>
          match readPayload st.stream pos1 header with
          | .error e =>
            if e = .eof ∧ 0 < totalRead then (totalRead, none, st)
            else (totalRead, some e, st)
          | .ok (payload, pos2) =>
            let st1 := { st with pos := pos2 }
            match decode payload with
            | .error e => (totalRead, some e, st1)
            | .ok samples =>
              let st2 := { st1 with framesRead := st1.framesRead + 1 }
              if samples.length = 0 then
                adtsReadLoop decode pcmLen fuel st2 totalRead
              else
                let n := min samples.length (pcmLen - totalRead)
                if n < samples.length then
                  adtsReadLoop decode pcmLen fuel
                    { st2 with pcmBuffer := samples, pcmOffset := n }
                    (totalRead + n)
                else
                  adtsReadLoop decode pcmLen fuel
                    { st2 with pcmBuffer := [], pcmOffset := 0 }
                    (totalRead + n)
    else (totalRead, none, st)

/-- Embeds `ADTSReader.Read` (adts.go). -/
def adtsRead (decode : List Nat → Except Err (List Int)) (st : ADTSState)
    (pcmLen : Nat) : Nat × Option Err × ADTSState :=
  match st.decoder with
  | none => (0, some .notInitialized, st)
  | some _ => adtsReadLoop decode pcmLen (pcmLen + st.stream.length + 1) st 0

/-- Embeds `ADTSReader.Close` (adts.go). -/
def adtsClose (st : ADTSState) : Option Err × ADTSState :=
  match st.decoder with
  | some d => ((decoderClose d).1, { st with decoder := none })
  | none => (none, st)

theorem claim_C4_witness :
    4 < 16 ∧ adtsSampleRates.getD 4 0 ≠ 0 ∧ 2 < 8 ∧ 512 < 8192 ∧
    ParseADTSHeader (encodeADTSHeader 4 2 512) =
      .ok (adtsSampleRates.getD 4 0, 2, 512) :=
  ⟨by decide, by decide, by decide, by decide,
    claim_C4 4 2 512 (by decide) (by decide) (by decide) (by decide)⟩

theorem claim_C8_witness :
    buildAudioSpecificConfig 3 5 2 =
      [3 <<< 3 ||| 5 >>> 1, (5 &&& 0x01) <<< 7 ||| 2 <<< 3] :=
  claim_C8.1 3 5 2 (by decide) (by decide) (by decide)

/-! ### Seek monotonicity -/

theorem seekLoop_ge (samples : List sampleInfo) :
    ∀ (t i acc : Nat), i ≤ seekLoop samples t i acc := by
  induction samples with
  | nil => intro t i acc; simp [seekLoop]
  | cons s rest ih =>
    intro t i acc
    simp only [seekLoop]
    by_cases h : t < acc + s.duration
    · rw [if_pos h]
    · rw [if_neg h]
      exact Nat.le_trans (Nat.le_succ i) (ih t (i + 1) (acc + s.duration))

theorem seekLoop_mono (samples : List sampleInfo) :
    ∀ (t1 t2 i acc : Nat), t1 ≤ t2 →
      seekLoop samples t1 i acc ≤ seekLoop samples t2 i acc := by
  induction samples with
  | nil => intro t1 t2 i acc _; simp [seekLoop]
  | cons s rest ih =>
    intro t1 t2 i acc ht
    simp only [seekLoop]
    by_cases h2 : t2 < acc + s.duration
    · rw [if_pos h2, if_pos (by omega)]
    · rw [if_neg h2]
      by_cases h1 : t1 < acc + s.duration
      · rw [if_pos h1]
        exact Nat.le_trans (Nat.le_succ i) (seekLoop_ge rest t2 (i + 1) _)
      · rw [if_neg h1]
        exact ih t1 t2 (i + 1) (acc + s.duration) ht

theorem sum_map_take_mono (l : List sampleInfo) :
    ∀ (a b : Nat), a ≤ b →
      ((l.take a).map (fun s => s.duration)).sum ≤
        ((l.take b).map (fun s => s.duration)).sum := by
  induction l with
  | nil => intro a b _; simp
  | cons x xs ih =>
    intro a b hab
    cases a with
    | zero => simp
    | succ a =>
      cases b with
      | zero => omega
      | succ b =>
        simp only [List.take_succ_cons, List.map_cons, List.sum_cons]
        exact Nat.add_le_add_left (ih a b (by omega)) x.duration

/-- C6: Seek is monotone.  For consecutive Seek calls with
non-decreasing targets, the selected sample index is non-decreasing
and the Position reported after each Seek is non-decreasing. -/
theorem claim_C6 : ∀ (st : M4AState) (t1 t2 : Nat) (st1 st2 : M4AState),
    t1 ≤ t2 → m4aSeek st t1 = .ok st1 → m4aSeek st1 t2 = .ok st2 →
    st1.currentIdx ≤ st2.currentIdx ∧ m4aPosition st1 ≤ m4aPosition st2 := by
  intro st t1 t2 st1 st2 ht h1 h2
  unfold m4aSeek at h1 h2
  by_cases hts : st.timescale = 0
  · rw [if_pos hts] at h1
    exact absurd h1 (by simp)
  · rw [if_neg hts] at h1
    simp only [Except.ok.injEq] at h1
    have hsamp1 : st1.samples = st.samples := by rw [← h1]
    have hts1 : st1.timescale = st.timescale := by rw [← h1]
    rw [if_neg (by rw [hts1]; exact hts)] at h2
    simp only [Except.ok.injEq] at h2
    have hsamp2 : st2.samples = st.samples := by rw [← h2, hsamp1]
    have hts2 : st2.timescale = st.timescale := by rw [← h2, hts1]
    -- the two target times, in timescale units
    have htgt : t1 * st.timescale / nanosPerSecond ≤
        t2 * st.timescale / nanosPerSecond :=
      Nat.div_le_div_right (Nat.mul_le_mul_right _ ht)
    have hloop := seekLoop_mono st.samples
      (t1 * st.timescale / nanosPerSecond)
      (t2 * st.timescale / nanosPerSecond) 0 0 htgt
    have hidx : st1.currentIdx ≤ st2.currentIdx := by
      rw [← h1, ← h2]
      simp only [hsamp1, hts1]
      split <;> split <;> omega
    refine ⟨hidx, ?_⟩
    unfold m4aPosition
    by_cases hz : st1.timescale = 0 ∨ st1.currentIdx = 0
    · rw [if_pos hz]
      exact Nat.zero_le _
    · rw [if_neg hz]
      have hz2 : ¬(st2.timescale = 0 ∨ st2.currentIdx = 0) := by
        rw [hts2, hts1] at *
        omega
      rw [if_neg hz2]
      rw [hsamp1, hsamp2, hts2, hts1]
      exact Nat.div_le_div_right
        (Nat.mul_le_mul_right _ (sum_map_take_mono st.samples _ _ hidx))

/-! ### Position/duration invariants -/

theorem m4aReadLoop_inv (decode : List Nat → Except Err (List Int))
    (pcmLen : Nat) : ∀ (fuel : Nat) (st : M4AState) (totalRead : Nat),
    st.currentIdx ≤ st.samples.length →
    (m4aReadLoop decode pcmLen fuel st totalRead).2.2.currentIdx ≤
      (m4aReadLoop decode pcmLen fuel st totalRead).2.2.samples.length ∧
    (m4aReadLoop decode pcmLen fuel st totalRead).2.2.samples = st.samples ∧
    (m4aReadLoop decode pcmLen fuel st totalRead).2.2.timescale = st.timescale ∧
    (m4aReadLoop decode pcmLen fuel st totalRead).2.2.duration = st.duration := by
  intro fuel
  induction fuel with
  | zero =>
    intro st totalRead h
    exact ⟨h, by simp [m4aReadLoop], by simp [m4aReadLoop], by simp [m4aReadLoop]⟩
  | succ fuel ih =>
    intro st totalRead h
    simp only [m4aReadLoop]
    by_cases h1 : totalRead < pcmLen
    case neg =>
      rw [if_neg h1]
      exact ⟨h, by simp, by simp, by simp⟩
    rw [if_pos h1]
    by_cases h2 : st.pcmOffset < st.pcmBuffer.length
    · rw [if_pos h2]
      exact ih _ _ h
    rw [if_neg h2]
    by_cases h3 : st.samples.length ≤ st.currentIdx
    · rw [if_pos h3]
      by_cases h4 : 0 < totalRead
      · rw [if_pos h4]
        exact ⟨h, by simp, by simp, by simp⟩
      · rw [if_neg h4]
        exact ⟨h, by simp, by simp, by simp⟩
    rw [if_neg h3]
    have hidx1 : st.currentIdx + 1 ≤ st.samples.length := by omega
    by_cases h5 : (st.samples.getD st.currentIdx ⟨0, 0, 0⟩).offset +
        (st.samples.getD st.currentIdx ⟨0, 0, 0⟩).size ≤ st.file.length
    · rw [if_pos h5]
      cases hdec : decode ((st.file.drop
          (st.samples.getD st.currentIdx ⟨0, 0, 0⟩).offset).take
          (st.samples.getD st.currentIdx ⟨0, 0, 0⟩).size) with
      | error e => exact ⟨hidx1, by simp, by simp, by simp⟩
      | ok samps =>
        dsimp only
        by_cases h6 : samps.length = 0
        · rw [if_pos h6]
          exact ih _ _ hidx1
        rw [if_neg h6]
        by_cases h7 : min samps.length (pcmLen - totalRead) < samps.length
        · rw [if_pos h7]
          exact ih _ _ hidx1
        · rw [if_neg h7]
          exact ih _ _ hidx1
    · rw [if_neg h5]
      exact ⟨hidx1, by simp, by simp, by simp⟩

theorem sum_map_take_le (l : List sampleInfo) :
    ∀ c : Nat, ((l.take c).map (fun s => s.duration)).sum ≤
      (l.map (fun s => s.duration)).sum := by
  induction l with
  | nil => intro c; simp
  | cons x xs ih =>
    intro c
    cases c with
    | zero => simp
    | succ c =>
      simp only [List.take_succ_cons, List.map_cons, List.sum_cons]
      exact Nat.add_le_add_left (ih c) x.duration

/-- C9: the current sample index stays at or below the table length
under Read and Seek (which also leave the table, timescale and stored
duration unchanged), and in any state whose stored duration is the one
computed at open time the reported Position never exceeds Duration:
Position sums a prefix of the same per-sample durations whose full sum
defines Duration. -/
theorem claim_C9 :
    (∀ st : M4AState, st.duration = m4aOpenDuration st.samples st.timescale →
      m4aPosition st ≤ m4aDuration st) ∧
    (∀ (decode : List Nat → Except Err (List Int)) (st : M4AState)
      (pcmLen : Nat), st.currentIdx ≤ st.samples.length →
      (m4aRead decode st pcmLen).2.2.currentIdx ≤
        (m4aRead decode st pcmLen).2.2.samples.length ∧
      (m4aRead decode st pcmLen).2.2.samples = st.samples ∧
      (m4aRead decode st pcmLen).2.2.timescale = st.timescale ∧
      (m4aRead decode st pcmLen).2.2.duration = st.duration) ∧
    (∀ (st : M4AState) (target : Nat) (st2 : M4AState),
      m4aSeek st target = .ok st2 →
      st2.currentIdx ≤ st2.samples.length ∧ st2.samples = st.samples ∧
      st2.timescale = st.timescale ∧ st2.duration = st.duration) := by
  refine ⟨?_, ?_, ?_⟩
  · intro st hdur
    unfold m4aPosition m4aDuration
    by_cases hz : st.timescale = 0 ∨ st.currentIdx = 0
    · rw [if_pos hz]
      exact Nat.zero_le _
    · rw [if_neg hz]
      rw [hdur]
      unfold m4aOpenDuration
      rw [if_pos (by omega)]
      exact Nat.div_le_div_right
        (Nat.mul_le_mul_right _ (sum_map_take_le st.samples st.currentIdx))
  · intro decode st pcmLen h
    unfold m4aRead
    cases hdec : st.decoder with
    | none => exact ⟨h, by simp, by simp, by simp⟩
    | some d => exact m4aReadLoop_inv decode pcmLen _ st 0 h
  · intro st target st2 hseek
    unfold m4aSeek at hseek
    by_cases hts : st.timescale = 0
    · rw [if_pos hts] at hseek
      exact absurd hseek (by simp)
    · rw [if_neg hts] at hseek
      simp only [Except.ok.injEq] at hseek
      refine ⟨?_, by rw [← hseek], by rw [← hseek], by rw [← hseek]⟩
      rw [← hseek]
      simp only
      split <;> omega

/-- Concrete decode engine used by witnesses: decodes any frame to two
samples. -/
def witnessDecode : List Nat → Except Err (List Int) :=
  fun _ => .ok [0, 0]

def c9St : M4AState :=
  { decoder := some ⟨1, false, 0⟩, file := [7, 7], sampleRate := 44100,
    channels := 1, duration := 40, timescale := nanosPerSecond,
    samples := [⟨0, 1, 40⟩], currentIdx := 1, pcmBuffer := [],
    pcmOffset := 0 }

theorem claim_C9_witness :
    (c9St.duration = m4aOpenDuration c9St.samples c9St.timescale ∧
      m4aPosition c9St ≤ m4aDuration c9St) ∧
    (c9St.currentIdx ≤ c9St.samples.length ∧
      (m4aRead witnessDecode c9St 4).2.2.currentIdx ≤
        (m4aRead witnessDecode c9St 4).2.2.samples.length) ∧
    (m4aSeek c9St 0 = .ok { c9St with currentIdx := 0 } ∧
      ({ c9St with currentIdx := 0 } : M4AState).currentIdx ≤
        ({ c9St with currentIdx := 0 } : M4AState).samples.length) := by
  refine ⟨⟨?_, ?_⟩, ⟨?_, ?_⟩, ⟨?_, ?_⟩⟩
  · rfl
  · exact claim_C9.1 c9St (by rfl)
  · decide
  · exact (claim_C9.2.1 witnessDecode c9St 4 (by decide)).1
  · rfl
  · exact (claim_C9.2.2 c9St 0 { c9St with currentIdx := 0 } (by rfl)).1

def seekDemoSamples : List sampleInfo := [⟨0, 1, 40⟩, ⟨1, 1, 40⟩, ⟨2, 1, 40⟩]

def seekDemoState (idx : Nat) : M4AState :=
  { decoder := none, file := [], sampleRate := 0, channels := 0,
    duration := 0, timescale := nanosPerSecond,
    samples := seekDemoSamples, currentIdx := idx,
    pcmBuffer := [], pcmOffset := 0 }

theorem claim_C6_witness :
    (50 : Nat) ≤ 150 ∧
    m4aSeek (seekDemoState 0) 50 = .ok (seekDemoState 1) ∧
    m4aSeek (seekDemoState 1) 150 = .ok (seekDemoState 3) ∧
    ((seekDemoState 1).currentIdx ≤ (seekDemoState 3).currentIdx ∧
      m4aPosition (seekDemoState 1) ≤ m4aPosition (seekDemoState 3)) :=
  ⟨by omega, by rfl, by rfl,
    claim_C6 (seekDemoState 0) 50 150 (seekDemoState 1) (seekDemoState 3)
      (by omega) (by rfl) (by rfl)⟩

/-- C10: a Read with a zero-length buffer on an open reader returns
zero samples and no error, and leaves the reader state (sample/stream
position, leftover buffer, frame counter) unchanged; this holds for
both the container reader and the elementary-stream reader. -/
theorem claim_C10 :
    (∀ (decode : List Nat → Except Err (List Int)) (st : M4AState),
      st.decoder.isSome → m4aRead decode st 0 = (0, none, st)) ∧
    (∀ (decode : List Nat → Except Err (List Int)) (st : ADTSState),
      st.decoder.isSome → adtsRead decode st 0 = (0, none, st)) := by
  constructor
  · intro decode st h
    unfold m4aRead
    cases hdec : st.decoder with
    | none => rw [hdec] at h; simp at h
    | some d => simp [m4aReadLoop]
  · intro decode st h
    unfold adtsRead
    cases hdec : st.decoder with
    | none => rw [hdec] at h; simp at h
    | some d => simp [adtsReadLoop]

/-- A small open elementary-stream reader state for witnesses. -/
def adtsDemoState : ADTSState :=
  { decoder := some ⟨1, false, 0⟩, stream := [0xFF, 0xF1], pos := 2,
    sampleRate := 44100, channels := 1, pcmBuffer := [], pcmOffset := 0,
    framesRead := 1 }

theorem claim_C10_witness :
    c9St.decoder.isSome ∧ m4aRead witnessDecode c9St 0 = (0, none, c9St) ∧
    adtsDemoState.decoder.isSome ∧
    adtsRead witnessDecode adtsDemoState 0 = (0, none, adtsDemoState) :=
  ⟨by decide, claim_C10.1 witnessDecode c9St (by decide),
   by decide, claim_C10.2 witnessDecode adtsDemoState (by decide)⟩

/-! ### End-of-source behaviour of Read (C1) -/

theorem m4aReadLoop_exhausted (decode : List Nat → Except Err (List Int))
    (pcmLen fuel : Nat) (st : M4AState) (totalRead : Nat)
    (h1 : totalRead < pcmLen)
    (h2 : st.pcmBuffer.length ≤ st.pcmOffset)
    (h3 : st.samples.length ≤ st.currentIdx) :
    m4aReadLoop decode pcmLen (fuel + 1) st totalRead =
      if 0 < totalRead then (totalRead, none, st)
      else (0, some .eof, st) := by
  simp only [m4aReadLoop]
  rw [if_pos h1, if_neg (by omega), if_pos h3]

theorem m4aReadLoop_drain_exhausted (decode : List Nat → Except Err (List Int))
    (pcmLen fuel : Nat) (st : M4AState)
    (h1 : 0 < pcmLen) (h2 : st.pcmOffset < st.pcmBuffer.length)
    (h3 : st.samples.length ≤ st.currentIdx) :
    m4aReadLoop decode pcmLen (fuel + 1 + 1) st 0 =
      (min (st.pcmBuffer.length - st.pcmOffset) pcmLen, none,
        { st with pcmOffset :=
            st.pcmOffset + min (st.pcmBuffer.length - st.pcmOffset) pcmLen }) := by
  conv_lhs => rw [m4aReadLoop]
  rw [if_pos h1, if_pos h2]
  simp only [Nat.sub_zero, Nat.zero_add]
  by_cases h4 : min (st.pcmBuffer.length - st.pcmOffset) pcmLen < pcmLen
  · have hn : min (st.pcmBuffer.length - st.pcmOffset) pcmLen =
        st.pcmBuffer.length - st.pcmOffset := by omega
    rw [m4aReadLoop_exhausted decode pcmLen fuel _ _ h4 (by simp; omega)
      (by simpa using h3)]
    rw [if_pos (by omega)]
  · conv_lhs => rw [m4aReadLoop]
    rw [if_neg h4]

theorem readHeader_eof (stream : List Nat) (pos : Nat)
    (h : stream.length ≤ pos) : readHeader stream pos = .error .eof := by
  unfold readHeader readFull
  rw [if_neg (by omega), if_pos h]

theorem adtsReadLoop_exhausted (decode : List Nat → Except Err (List Int))
    (pcmLen fuel : Nat) (st : ADTSState) (totalRead : Nat)
    (h1 : totalRead < pcmLen)
    (h2 : st.pcmBuffer.length ≤ st.pcmOffset)
    (h3 : st.stream.length ≤ st.pos) :
    adtsReadLoop decode pcmLen (fuel + 1) st totalRead =
      if 0 < totalRead then (totalRead, none, st)
      else (totalRead, some .eof, st) := by
  simp only [adtsReadLoop]
  rw [if_pos h1, if_neg (by omega), readHeader_eof st.stream st.pos h3]
  by_cases h4 : 0 < totalRead
  · rw [if_pos h4]
    simp [h4]
  · rw [if_neg h4]
    simp [h4]

theorem adtsReadLoop_drain_exhausted (decode : List Nat → Except Err (List Int))
    (pcmLen fuel : Nat) (st : ADTSState)
    (h1 : 0 < pcmLen) (h2 : st.pcmOffset < st.pcmBuffer.length)
    (h3 : st.stream.length ≤ st.pos) :
    adtsReadLoop decode pcmLen (fuel + 1 + 1) st 0 =
      (min (st.pcmBuffer.length - st.pcmOffset) pcmLen, none,
        { st with pcmOffset :=
            st.pcmOffset + min (st.pcmBuffer.length - st.pcmOffset) pcmLen }) := by
  conv_lhs => rw [adtsReadLoop]
  rw [if_pos h1, if_pos h2]
  simp only [Nat.sub_zero, Nat.zero_add]
  by_cases h4 : min (st.pcmBuffer.length - st.pcmOffset) pcmLen < pcmLen
  · rw [adtsReadLoop_exhausted decode pcmLen fuel _ _ h4 (by simp; omega)
      (by simpa using h3)]
    rw [if_pos (by omega)]
  · conv_lhs => rw [adtsReadLoop]
    rw [if_neg h4]

theorem m4aRead_open (decode : List Nat → Except Err (List Int))
    (st : M4AState) (pcmLen : Nat) (h : st.decoder.isSome) :
    m4aRead decode st pcmLen =
      m4aReadLoop decode pcmLen (pcmLen + st.samples.length + 1) st 0 := by
  unfold m4aRead
  cases hdec : st.decoder with
  | none => rw [hdec] at h; simp at h
  | some d => rfl

theorem adtsRead_open (decode : List Nat → Except Err (List Int))
    (st : ADTSState) (pcmLen : Nat) (h : st.decoder.isSome) :
    adtsRead decode st pcmLen =
      adtsReadLoop decode pcmLen (pcmLen + st.stream.length + 1) st 0 := by
  unfold adtsRead
  cases hdec : st.decoder with
  | none => rw [hdec] at h; simp at h
  | some d => rfl

/-- C1: for every open reader (container or elementary-stream) and
non-empty caller buffer, when the underlying source is exhausted, a
Read that has already copied at least one sample returns the copied
count with no error, and a Read that has copied nothing returns zero
with the end-of-stream status.  Exhaustion is `currentIdx` past the
sample table for the container reader and the read position at the end
of the stream for the elementary-stream reader; the copied count is
the leftover-buffer drain, clipped to the caller buffer. -/
theorem claim_C1 :
    (∀ (decode : List Nat → Except Err (List Int)) (st : M4AState)
      (pcmLen : Nat), st.decoder.isSome → 0 < pcmLen →
      st.pcmBuffer.length ≤ st.pcmOffset →
      st.samples.length ≤ st.currentIdx →
      m4aRead decode st pcmLen = (0, some .eof, st)) ∧
    (∀ (decode : List Nat → Except Err (List Int)) (st : M4AState)
      (pcmLen : Nat), st.decoder.isSome → 0 < pcmLen →
      st.pcmOffset < st.pcmBuffer.length →
      st.samples.length ≤ st.currentIdx →
      0 < (m4aRead decode st pcmLen).1 ∧
      m4aRead decode st pcmLen =
        (min (st.pcmBuffer.length - st.pcmOffset) pcmLen, none,
          { st with pcmOffset :=
              st.pcmOffset + min (st.pcmBuffer.length - st.pcmOffset) pcmLen })) ∧
    (∀ (decode : List Nat → Except Err (List Int)) (st : ADTSState)
      (pcmLen : Nat), st.decoder.isSome → 0 < pcmLen →
      st.pcmBuffer.length ≤ st.pcmOffset →
      st.stream.length ≤ st.pos →
      adtsRead decode st pcmLen = (0, some .eof, st)) ∧
    (∀ (decode : List Nat → Except Err (List Int)) (st : ADTSState)
      (pcmLen : Nat), st.decoder.isSome → 0 < pcmLen →
      st.pcmOffset < st.pcmBuffer.length →
      st.stream.length ≤ st.pos →
      0 < (adtsRead decode st pcmLen).1 ∧
      adtsRead decode st pcmLen =
        (min (st.pcmBuffer.length - st.pcmOffset) pcmLen, none,
          { st with pcmOffset :=
              st.pcmOffset + min (st.pcmBuffer.length - st.pcmOffset) pcmLen })) := by
  refine ⟨?_, ?_, ?_, ?_⟩
  · intro decode st pcmLen hsome h1 h2 h3
    rw [m4aRead_open decode st pcmLen hsome]
    rw [m4aReadLoop_exhausted decode pcmLen (pcmLen + st.samples.length)
      st 0 h1 h2 h3]
    rw [if_neg (by omega)]
  · intro decode st pcmLen hsome h1 h2 h3
    have heq : m4aRead decode st pcmLen =
        (min (st.pcmBuffer.length - st.pcmOffset) pcmLen, none,
          { st with pcmOffset :=
              st.pcmOffset + min (st.pcmBuffer.length - st.pcmOffset) pcmLen }) := by
      rw [m4aRead_open decode st pcmLen hsome]
      have hf : pcmLen + st.samples.length + 1 =
          (pcmLen - 1) + st.samples.length + 1 + 1 := by omega
      rw [hf]
      exact m4aReadLoop_drain_exhausted decode pcmLen
        ((pcmLen - 1) + st.samples.length) st h1 h2 h3
    refine ⟨?_, heq⟩
    rw [heq]
    dsimp only
    omega
  · intro decode st pcmLen hsome h1 h2 h3
    rw [adtsRead_open decode st pcmLen hsome]
    rw [adtsReadLoop_exhausted decode pcmLen (pcmLen + st.stream.length)
      st 0 h1 h2 h3]
    rw [if_neg (by omega)]
  · intro decode st pcmLen hsome h1 h2 h3
    have heq : adtsRead decode st pcmLen =
        (min (st.pcmBuffer.length - st.pcmOffset) pcmLen, none,
          { st with pcmOffset :=
              st.pcmOffset + min (st.pcmBuffer.length - st.pcmOffset) pcmLen }) := by
      rw [adtsRead_open decode st pcmLen hsome]
      have hf : pcmLen + st.stream.length + 1 =
          (pcmLen - 1) + st.stream.length + 1 + 1 := by omega
      rw [hf]
      exact adtsReadLoop_drain_exhausted decode pcmLen
        ((pcmLen - 1) + st.stream.length) st h1 h2 h3
    refine ⟨?_, heq⟩
    rw [heq]
    dsimp only
    omega

def m4aEofState : M4AState :=
  { decoder := some ⟨1, false, 0⟩, file := [], sampleRate := 44100,
    channels := 1, duration := 0, timescale := 1000, samples := [],
    currentIdx := 0, pcmBuffer := [], pcmOffset := 0 }

def adtsEofState : ADTSState :=
  { decoder := some ⟨1, false, 0⟩, stream := [], pos := 0,
    sampleRate := 44100, channels := 1, pcmBuffer := [], pcmOffset := 0,
    framesRead := 1 }

theorem claim_C1_witness :
    m4aRead witnessDecode m4aEofState 4 = (0, some .eof, m4aEofState) ∧
    m4aRead witnessDecode { m4aEofState with pcmBuffer := [3, 3] } 4 =
      (2, none,
        { m4aEofState with pcmBuffer := [3, 3], pcmOffset := 2 }) ∧
    adtsRead witnessDecode adtsEofState 4 = (0, some .eof, adtsEofState) ∧
    adtsRead witnessDecode { adtsEofState with pcmBuffer := [3, 3] } 4 =
      (2, none,
        { adtsEofState with pcmBuffer := [3, 3], pcmOffset := 2 }) := by
  refine ⟨?_, ?_, ?_, ?_⟩
  · exact claim_C1.1 witnessDecode m4aEofState 4 (by decide) (by decide)
      (by decide) (by decide)
  · exact (claim_C1.2.1 witnessDecode
      { m4aEofState with pcmBuffer := [3, 3] } 4 (by decide) (by decide)
      (by decide) (by decide)).2
  · exact claim_C1.2.2.1 witnessDecode adtsEofState 4 (by decide) (by decide)
      (by decide) (by decide)
  · exact (claim_C1.2.2.2 witnessDecode
      { adtsEofState with pcmBuffer := [3, 3] } 4 (by decide) (by decide)
      (by decide) (by decide)).2

/-! ### Close semantics (C7) -/

/-- C7 as stated is false on the error identity: a Read after Close
returns the not-initialized error (the repository's own test expects
`ErrNotInitialized` there), not a "closed" error — the closed error
(`ErrDecoderClosed`) is a distinct sentinel reported by the decoder
handle itself, which the reader nils out on Close. -/
theorem claim_C7_cex :
    (m4aRead witnessDecode (m4aClose c9St).2 4).2.1 =
      some Err.notInitialized ∧
    some Err.notInitialized ≠ some Err.decoderClosed := by
  constructor
  · rfl
  · decide

/-- C7 (amended): Close releases the decode-engine handle exactly once
and is idempotent — the engine destroy runs once on a live handle, a
second engine Close is a no-op returning no error, the reader's first
Close hands its handle to the engine Close and nils it, and a second
reader Close is a no-op returning no error — and every Read performed
after Close fails with a not-initialized error rather than being
silently accepted. -/
theorem claim_C7 :
    (∀ d : DecoderState, d.closed = false → d.ptr ≠ 0 →
      decoderClose d = (none, ⟨0, true, d.destroyCalls + 1⟩)) ∧
    (∀ d : DecoderState,
      decoderClose (decoderClose d).2 = (none, (decoderClose d).2)) ∧
    (∀ (st : M4AState) (d : DecoderState), st.decoder = some d →
      m4aClose st = ((decoderClose d).1, { st with decoder := none })) ∧
    (∀ st : M4AState, (m4aClose st).1 = none ∧
      (m4aClose st).2.decoder = none ∧
      m4aClose (m4aClose st).2 = (none, (m4aClose st).2)) ∧
    (∀ (decode : List Nat → Except Err (List Int)) (st : M4AState)
      (pcmLen : Nat), st.decoder = none →
      m4aRead decode st pcmLen = (0, some .notInitialized, st)) ∧
    (∀ (st : ADTSState) (d : DecoderState), st.decoder = some d →
      adtsClose st = ((decoderClose d).1, { st with decoder := none })) ∧
    (∀ st : ADTSState, (adtsClose st).1 = none ∧
      (adtsClose st).2.decoder = none ∧
      adtsClose (adtsClose st).2 = (none, (adtsClose st).2)) ∧
    (∀ (decode : List Nat → Except Err (List Int)) (st : ADTSState)
      (pcmLen : Nat), st.decoder = none →
      adtsRead decode st pcmLen = (0, some .notInitialized, st)) := by
  refine ⟨?_, ?_, ?_, ?_, ?_, ?_, ?_, ?_⟩
  · intro d h1 h2
    simp [decoderClose, h1, h2]
  · intro d
    by_cases h : d.closed
    · simp [decoderClose, h]
    · simp [decoderClose, h]
  · intro st d h
    unfold m4aClose
    rw [h]
  · intro st
    cases h : st.decoder with
    | none => simp [m4aClose, h]
    | some d =>
      simp [m4aClose, h, decoderClose]
      split_ifs <;> simp
  · intro decode st pcmLen h
    unfold m4aRead
    rw [h]
  · intro st d h
    unfold adtsClose
    rw [h]
  · intro st
    cases h : st.decoder with
    | none => simp [adtsClose, h]
    | some d =>
      simp [adtsClose, h, decoderClose]
      split_ifs <;> simp
  · intro decode st pcmLen h
    unfold adtsRead
    rw [h]

theorem claim_C7_witness :
    decoderClose ⟨1, false, 0⟩ = (none, ⟨0, true, 1⟩) ∧
    decoderClose (decoderClose ⟨1, false, 0⟩).2 =
      (none, (decoderClose ⟨1, false, 0⟩).2) ∧
    m4aClose c9St = ((decoderClose ⟨1, false, 0⟩).1,
      { c9St with decoder := none }) ∧
    m4aClose (m4aClose c9St).2 = (none, (m4aClose c9St).2) ∧
    m4aRead witnessDecode { c9St with decoder := none } 4 =
      (0, some .notInitialized, { c9St with decoder := none }) ∧
    adtsClose adtsDemoState = ((decoderClose ⟨1, false, 0⟩).1,
      { adtsDemoState with decoder := none }) ∧
    adtsRead witnessDecode { adtsDemoState with decoder := none } 4 =
      (0, some .notInitialized, { adtsDemoState with decoder := none }) :=
  ⟨claim_C7.1 ⟨1, false, 0⟩ rfl (by decide),
   claim_C7.2.1 ⟨1, false, 0⟩,
   claim_C7.2.2.1 c9St ⟨1, false, 0⟩ rfl,
   (claim_C7.2.2.2.1 c9St).2.2,
   claim_C7.2.2.2.2.1 witnessDecode { c9St with decoder := none } 4 rfl,
   claim_C7.2.2.2.2.2.1 adtsDemoState ⟨1, false, 0⟩ rfl,
   claim_C7.2.2.2.2.2.2.2 witnessDecode
     { adtsDemoState with decoder := none } 4 rfl⟩

/-! ### Resynchronizer (C5) -/

theorem getD_take_drop (l : List Nat) (i k j : Nat) (hj : j < k)
    (_hij : i + j < l.length) :
    ((l.drop i).take k).getD j 0 = l.getD (i + j) 0 := by
  rw [List.getD_eq_getElem?_getD, List.getD_eq_getElem?_getD]
  rw [List.getElem?_take, if_pos hj, List.getElem?_drop]

theorem resyncWindow_length_eq (stream : List Nat) (pos : Nat)
    (buf6 : List Nat) (h6 : buf6.length = 6) :
    (resyncWindow stream pos buf6).length =
      6 + min (maxResyncBytes - 6) (stream.length - pos) := by
  unfold resyncWindow
  simp [h6]

theorem resync_noMatch (stream : List Nat) (pos : Nat) (buf6 : List Nat)
    (h : findSync (resyncWindow stream pos buf6) = none) :
    resync stream pos buf6 = .error .syncNotFound := by
  simp only [resync]
  by_cases hn : min (maxResyncBytes - 6) (stream.length - pos) = 0
  · rw [if_pos hn]
  · rw [if_neg hn, h]

theorem resync_match (stream : List Nat) (pos : Nat) (buf6 : List Nat)
    (i : Nat) (h6 : buf6.length = 6)
    (hfind : findSync (resyncWindow stream pos buf6) = some i)
    (hroom : i + 7 ≤ (resyncWindow stream pos buf6).length) :
    resync stream pos buf6 =
      .ok (((resyncWindow stream pos buf6).drop i).take 7,
        pos + min (maxResyncBytes - 6) (stream.length - pos)) ∧
    isSyncAt (((resyncWindow stream pos buf6).drop i).take 7) 0 = true := by
  have hlen := resyncWindow_length_eq stream pos buf6 h6
  have hn : ¬ min (maxResyncBytes - 6) (stream.length - pos) = 0 := by omega
  constructor
  · simp only [resync]
    rw [if_neg hn, hfind]
    dsimp only
    rw [if_pos hroom]
  · have hsync : isSyncAt (resyncWindow stream pos buf6) i = true := by
      have := List.find?_some hfind
      exact this
    unfold isSyncAt at hsync ⊢
    rw [getD_take_drop _ _ _ _ (by omega) (by omega),
      getD_take_drop _ _ _ _ (by omega) (by omega)]
    simpa using hsync

theorem readHeader_resync_error (stream : List Nat) (pos : Nat) (e : Err)
    (hlen : pos + 7 ≤ stream.length)
    (hsync : ((stream.drop pos).take 7).getD 0 0 <<< 4 |||
      ((stream.drop pos).take 7).getD 1 0 >>> 4 ≠ 0xFFF)
    (hres : resync stream (pos + 7) (((stream.drop pos).take 7).drop 1) =
      .error e) :
    readHeader stream pos = .error e := by
  simp only [readHeader, readFull]
  rw [if_pos hlen]
  dsimp only
  rw [if_pos hsync, hres]

theorem readHeader_resync_ok (stream : List Nat) (pos : Nat)
    (buf2 : List Nat) (pos2 : Nat)
    (hlen : pos + 7 ≤ stream.length)
    (hsync : ((stream.drop pos).take 7).getD 0 0 <<< 4 |||
      ((stream.drop pos).take 7).getD 1 0 >>> 4 ≠ 0xFFF)
    (hres : resync stream (pos + 7) (((stream.drop pos).take 7).drop 1) =
      .ok (buf2, pos2))
    (hpa : (parseHeaderFields buf2).protectionAbsent = true) :
    readHeader stream pos = .ok (parseHeaderFields buf2, pos2) := by
  simp only [readHeader, readFull]
  rw [if_pos hlen]
  dsimp only
  rw [if_pos hsync, hres]
  dsimp only
  rw [if_pos hpa]

theorem resync_match_tail (stream : List Nat) (pos : Nat) (buf6 : List Nat)
    (i : Nat) (extra : List Nat) (pos2 : Nat)
    (hpos : pos < stream.length)
    (hfind : findSync (resyncWindow stream pos buf6) = some i)
    (hnoroom : ¬ i + 7 ≤ (resyncWindow stream pos buf6).length)
    (hread : readFull stream
        (pos + min (maxResyncBytes - 6) (stream.length - pos))
        (7 - ((resyncWindow stream pos buf6).length - i)) =
      .ok (extra, pos2)) :
    resync stream pos buf6 =
      .ok ((resyncWindow stream pos buf6).drop i ++ extra, pos2) := by
  have hn : ¬ min (maxResyncBytes - 6) (stream.length - pos) = 0 := by
    unfold maxResyncBytes
    omega
  simp only [resync]
  rw [if_neg hn, hfind]
  dsimp only
  rw [if_neg hnoroom, hread]

/-- C5: when the sync check fails, the resynchronizer scans a single
bounded window (the 6 retained bytes plus one bounded read, at most
8192 bytes in total); if no two-byte pattern 0xFF,0xFx occurs in the
window it fails with the sync-not-found error, and that failure (or
any other resync failure) surfaces through `readHeader` unchanged —
there is no second attempt; if the pattern occurs at `i` with a full
header inside the window, resync succeeds with the 7 bytes starting at
the match (which begin with the sync pattern), and `readHeader`
parses the header from exactly those bytes; if the match lies near the
end of the window, the trailing header bytes are re-read from the
source. -/
theorem claim_C5 :
    (∀ (stream : List Nat) (pos : Nat) (buf6 : List Nat),
      buf6.length = 6 →
      (resyncWindow stream pos buf6).length ≤ maxResyncBytes) ∧
    (∀ (stream : List Nat) (pos : Nat) (buf6 : List Nat),
      findSync (resyncWindow stream pos buf6) = none →
      resync stream pos buf6 = .error .syncNotFound) ∧
    (∀ (stream : List Nat) (pos : Nat) (buf6 : List Nat) (i : Nat),
      buf6.length = 6 →
      findSync (resyncWindow stream pos buf6) = some i →
      i + 7 ≤ (resyncWindow stream pos buf6).length →
      resync stream pos buf6 =
        .ok (((resyncWindow stream pos buf6).drop i).take 7,
          pos + min (maxResyncBytes - 6) (stream.length - pos)) ∧
      isSyncAt (((resyncWindow stream pos buf6).drop i).take 7) 0 = true) ∧
    (∀ (stream : List Nat) (pos : Nat) (e : Err),
      pos + 7 ≤ stream.length →
      ((stream.drop pos).take 7).getD 0 0 <<< 4 |||
        ((stream.drop pos).take 7).getD 1 0 >>> 4 ≠ 0xFFF →
      resync stream (pos + 7) (((stream.drop pos).take 7).drop 1) =
        .error e →
      readHeader stream pos = .error e) ∧
    (∀ (stream : List Nat) (pos : Nat) (buf2 : List Nat) (pos2 : Nat),
      pos + 7 ≤ stream.length →
      ((stream.drop pos).take 7).getD 0 0 <<< 4 |||
        ((stream.drop pos).take 7).getD 1 0 >>> 4 ≠ 0xFFF →
      resync stream (pos + 7) (((stream.drop pos).take 7).drop 1) =
        .ok (buf2, pos2) →
      (parseHeaderFields buf2).protectionAbsent = true →
      readHeader stream pos = .ok (parseHeaderFields buf2, pos2)) ∧
    (∀ (stream : List Nat) (pos : Nat) (buf6 : List Nat) (i : Nat)
      (extra : List Nat) (pos2 : Nat),
      pos < stream.length →
      findSync (resyncWindow stream pos buf6) = some i →
      ¬ i + 7 ≤ (resyncWindow stream pos buf6).length →
      readFull stream
          (pos + min (maxResyncBytes - 6) (stream.length - pos))
          (7 - ((resyncWindow stream pos buf6).length - i)) =
        .ok (extra, pos2) →
      resync stream pos buf6 =
        .ok ((resyncWindow stream pos buf6).drop i ++ extra, pos2)) := by
  refine ⟨?_, resync_noMatch, resync_match, readHeader_resync_error,
    readHeader_resync_ok, resync_match_tail⟩
  intro stream pos buf6 h6
  rw [resyncWindow_length_eq stream pos buf6 h6]
  unfold maxResyncBytes
  omega

def noiseStream : List Nat := List.replicate 20 0

def syncStream : List Nat :=
  [9, 9, 9, 9, 9, 9, 9, 0xFF, 0xF1, 0x50, 0x80, 0x1F, 0xFC, 0x00]

theorem claim_C5_witness :
    (resyncWindow noiseStream 7 [0, 0, 0, 0, 0, 0]).length ≤
      maxResyncBytes ∧
    resync noiseStream 7 [0, 0, 0, 0, 0, 0] = .error .syncNotFound ∧
    (resync syncStream 7 [9, 9, 9, 9, 9, 9] =
      .ok ([0xFF, 0xF1, 0x50, 0x80, 0x1F, 0xFC, 0x00], 14) ∧
      isSyncAt [0xFF, 0xF1, 0x50, 0x80, 0x1F, 0xFC, 0x00] 0 = true) ∧
    readHeader noiseStream 0 = .error .syncNotFound ∧
    readHeader syncStream 0 =
      .ok (parseHeaderFields [0xFF, 0xF1, 0x50, 0x80, 0x1F, 0xFC, 0x00],
        14) := by
  refine ⟨?_, ?_, ?_, ?_, ?_⟩
  · exact claim_C5.1 noiseStream 7 [0, 0, 0, 0, 0, 0] (by decide)
  · exact claim_C5.2.1 noiseStream 7 [0, 0, 0, 0, 0, 0] (by decide)
  · exact claim_C5.2.2.1 syncStream 7 [9, 9, 9, 9, 9, 9] 6 (by decide)
      (by decide) (by decide)
  · exact claim_C5.2.2.2.1 noiseStream 0 .syncNotFound (by decide)
      (by decide) (by rfl)
  · exact claim_C5.2.2.2.2.1 syncStream 0
      [0xFF, 0xF1, 0x50, 0x80, 0x1F, 0xFC, 0x00] 14 (by decide) (by decide)
      (by rfl) (by decide)

end Faad2
